import Mathlib

/-!
A shallow embedding of micrograd's network-definition layer (nn.py):
Neuron, Layer, MLP and ArchitecturalModel.  The scalar autograd engine
(micrograd.engine.Value) and the ambient random state (random.uniform) are
external to this file's source and are modelled from the spec: exact
rationals stand in for Python floats, and randomness is an explicit stream
of draws threaded through construction.
-/

namespace Micrograd

/-- Modelled from the spec: the scalar value type of the external autograd
engine (micrograd.engine.Value, the companion module, not part of this
repository's source), reduced to its forward data and its accumulated
gradient; exact rationals stand in for Python floats. -/
structure Value where
  data : Rat
  grad : Rat
deriving DecidableEq

/-- Modelled from the spec: the engine's rectified-linear activation,
max(0, value). -/
def relu (a : Rat) : Rat := max 0 a

/-- Modelled from the spec: the ambient random state used by
random.uniform(-1, 1), as an explicit stream of draws with a position. -/
structure Rng where
  stream : Nat → Rat
  pos : Nat

/-- Draw one value from the random stream. -/
def Rng.next (r : Rng) : Rat × Rng := (r.stream r.pos, { r with pos := r.pos + 1 })

/-- Draw k values from the random stream, in order. -/
def drawList : Nat → Rng → List Rat × Rng
  | 0, r => ([], r)
  | k + 1, r => ((r.next.1 :: (drawList k r.next.2).1), (drawList k r.next.2).2)

/-- Source class Neuron: a list of weight scalars, a bias scalar and the
nonlinearity flag. -/
structure Neuron where
  w : List Value
  b : Value
  nonlin : Bool
deriving DecidableEq

/-- Source Neuron.__init__: nin fresh uniform draws as weights (grad 0),
bias Value(0). -/
def Neuron.init (nin : Nat) (nonlin : Bool) (r : Rng) : Neuron × Rng :=
  ({ w := (drawList nin r).1.map (fun d => { data := d, grad := 0 }),
     b := { data := 0, grad := 0 },
     nonlin := nonlin },
   (drawList nin r).2)

/-- Source Neuron.__call__:
act = sum((wi*xi for wi, xi in zip(self.w, x)), self.b);
return act.relu() if self.nonlin else act.
zip truncates at the shorter sequence and sum folds from the left starting
at the bias. -/
def Neuron.call (n : Neuron) (x : List Rat) : Rat :=
  let act := (List.zip n.w x).foldl (fun acc p => acc + p.1.data * p.2) n.b.data
  if n.nonlin then relu act else act

/-- Source Neuron.parameters: self.w + [self.b]. -/
def Neuron.parameters (n : Neuron) : List Value := n.w ++ [n.b]

/-- One parameter after the zero-grad sweep: grad set to 0, data untouched. -/
def zeroGradV (v : Value) : Value := { v with grad := 0 }

/-- Source Module.zero_grad acting on a Neuron: p.grad = 0 for every p in
parameters(), i.e. for every weight and the bias. -/
def Neuron.zeroGrad (n : Neuron) : Neuron :=
  { n with w := n.w.map zeroGradV, b := zeroGradV n.b }

/-- Spec formula: the affine sum bias + sum of w_i * x_i. -/
def affineSum (n : Neuron) (x : List Rat) : Rat :=
  n.b.data + (List.zipWith (fun wv xv => wv.data * xv) n.w x).sum

/-- The heterogeneous return type of Layer.__call__: a bare scalar when the
layer has exactly one neuron, otherwise the list of scalars. -/
inductive LOut where
  | scalar (v : Rat)
  | vec (vs : List Rat)
deriving DecidableEq

/-- Source class Layer: an ordered list of Neurons. -/
structure Layer where
  neurons : List Neuron
deriving DecidableEq

/-- Source Layer.__init__ body: [Neuron(nin, **kwargs) for _ in range(nout)],
drawing randomness in order. -/
def mkNeurons : Nat → Nat → Bool → Rng → List Neuron × Rng
  | 0, _, _, r => ([], r)
  | k + 1, nin, nl, r =>
    ((Neuron.init nin nl r).1 :: (mkNeurons k nin nl (Neuron.init nin nl r).2).1,
     (mkNeurons k nin nl (Neuron.init nin nl r).2).2)

/-- Source Layer.__init__ with the nonlin keyword made explicit. -/
def Layer.init (nin nout : Nat) (nonlin : Bool) (r : Rng) : Layer × Rng :=
  ({ neurons := (mkNeurons nout nin nonlin r).1 }, (mkNeurons nout nin nonlin r).2)

/-- Source Layer.__call__: out = [n(x) for n in self.neurons];
return out[0] if len(out) == 1 else out. -/
def Layer.call (l : Layer) (x : List Rat) : LOut :=
  if h : (l.neurons.map (fun n => n.call x)).length = 1 then
    .scalar ((l.neurons.map (fun n => n.call x)).get ⟨0, by omega⟩)
  else
    .vec (l.neurons.map (fun n => n.call x))

/-- Source Layer.parameters: [p for n in self.neurons for p in n.parameters()]. -/
def Layer.parameters (l : Layer) : List Value := l.neurons.flatMap Neuron.parameters

/-- Source Module.zero_grad acting on a Layer: every contained parameter's
grad becomes 0. -/
def Layer.zeroGrad (l : Layer) : Layer := { neurons := l.neurons.map Neuron.zeroGrad }

/-- Source class MLP: an ordered list of Layers. -/
structure MLP where
  layers : List Layer
deriving DecidableEq

/-- Source MLP.__init__ body: sz = [nin] + nouts;
[Layer(sz[i], sz[i+1], nonlin = i != len(nouts)-1) for i in range(len(nouts))],
constructed in order (so the random draws happen in order); every layer is
nonlinear except the last. -/
def mkStack : Nat → List Nat → Rng → List Layer × Rng
  | _, [], r => ([], r)
  | nin, [nout], r =>
    ([(Layer.init nin nout false r).1], (Layer.init nin nout false r).2)
  | nin, nout :: next :: rest, r =>
    ((Layer.init nin nout true r).1 ::
       (mkStack nout (next :: rest) (Layer.init nin nout true r).2).1,
     (mkStack nout (next :: rest) (Layer.init nin nout true r).2).2)

/-- Source MLP.__init__. -/
def MLP.init (nin : Nat) (nouts : List Nat) (r : Rng) : MLP × Rng :=
  ({ layers := (mkStack nin nouts r).1 }, (mkStack nin nouts r).2)

/-- One iteration of the loop in MLP.__call__ (x = layer(x)): feeding a bare
scalar into the next Layer is a Python TypeError (Value is not iterable),
modelled as none. -/
def stepLayer (acc : Option LOut) (l : Layer) : Option LOut :=
  match acc with
  | some (.vec vs) => some (l.call vs)
  | _ => none

/-- Source MLP.__call__: for layer in self.layers: x = layer(x); return x. -/
def MLP.call (m : MLP) (x : List Rat) : Option LOut :=
  m.layers.foldl stepLayer (some (.vec x))

/-- Modelled from the spec: applying, in order, a sequence of standalone
Layers and threading each layer's output into the next (the manually nested
composition that MLP is claimed to be equivalent to). -/
def applyLayers : List Layer → List Rat → Option LOut
  | [], x => some (.vec x)
  | l :: rest, x =>
    match l.call x with
    | .vec vs => applyLayers rest vs
    | .scalar v =>
      match rest with
      | [] => some (.scalar v)
      | _ :: _ => none

/-- Source MLP.parameters. -/
def MLP.parameters (m : MLP) : List Value := m.layers.flatMap Layer.parameters

/-- Source Module.zero_grad acting on an MLP. -/
def MLP.zeroGrad (m : MLP) : MLP := { layers := m.layers.map Layer.zeroGrad }

/-- An input-register specification of an ArchitecturalModel step: per the
class docstring, either a single register name or a list of register names. -/
inductive RegSpec where
  | single (r : String)
  | multi (rs : List String)
deriving DecidableEq

/-- One entry (register_in, nneurons, register_out, kwargs) of the
architecture list; of the open kwargs only the nonlin flag reaches the
Neurons, and the docstring's bare dict corresponds to the default true. -/
structure Step where
  rin : RegSpec
  width : Nat
  rout : String
  nonlin : Bool
deriving DecidableEq

/-- The Python exceptions that ArchitecturalModel.__init__ can raise:
the width-mismatch ValueError with the register name, the width the step
declares (got) and the recorded width (expected); the register-spec
ValueError for a list input spec whose length is not 2; the TypeError from
the malformed list.append call with three arguments (or a list used as a
dict key); and KeyError for a missing register_sizes key. -/
inductive PyError where
  | widthMismatch (rout : String) (got expected : Nat)
  | registerSpec
  | typeError
  | keyError (k : String)
deriving DecidableEq

/-- Lookup in the register_sizes dict, modelled as an association list. -/
def lookupSize (r : String) : List (String × Nat) → Option Nat
  | [] => none
  | p :: rest => if p.1 = r then some p.2 else lookupSize r rest

/-- Source: the register-width inference pass of ArchitecturalModel.__init__,
starting from register_sizes = ("I", nin): a step whose output register is
new records its width; a step redeclaring a recorded register with the same
width is allowed; a different width raises the width-mismatch ValueError. -/
def inferSizes : List Step → List (String × Nat) → Except PyError (List (String × Nat))
  | [], sizes => .ok sizes
  | s :: rest, sizes =>
    match lookupSize s.rout sizes with
    | none => inferSizes rest ((s.rout, s.width) :: sizes)
    | some e =>
      if s.width = e then inferSizes rest sizes
      else .error (.widthMismatch s.rout s.width e)

/-- An executable step of the model, (input spec, layer, output register) —
the tuple the source evidently intends to store in self.layers. -/
structure AStep where
  rin : RegSpec
  layer : Layer
  rout : String
deriving DecidableEq

/-- Source: the layer-construction loop of ArchitecturalModel.__init__.
Every iteration ends with the unconditional statement
self.layers.append(rin, Layer(register_sizes[rin], register_sizes[rout], **kwa), rout),
which always raises: for a list-valued rin, register_sizes[rin] is a
TypeError (a list is unhashable), and for a string rin, list.append with
three arguments is a TypeError.  A list-valued rin of length other than two
raises the register-spec ValueError first; dict lookups of absent keys
raise KeyError.  Hence the loop never completes its first iteration and the
recursion never continues, exactly as in the source. -/
def buildLayers (sizes : List (String × Nat)) : List Step → Rng → Except PyError (List AStep × Rng)
  | [], r => .ok ([], r)
  | s :: _, _ =>
    match s.rin with
    | .multi l =>
      if l.length = 2 then
        match lookupSize (l.headD "") sizes with
        | none => .error (.keyError (l.headD ""))
        | some _ =>
          match lookupSize (l.getD 1 "") sizes with
          | none => .error (.keyError (l.getD 1 ""))
          | some _ =>
            match lookupSize s.rout sizes with
            | none => .error (.keyError s.rout)
            | some _ => .error .typeError
      else .error .registerSpec
    | .single rn =>
      match lookupSize rn sizes with
      | none => .error (.keyError rn)
      | some _ =>
        match lookupSize s.rout sizes with
        | none => .error (.keyError s.rout)
        | some _ => .error .typeError

/-- Source class ArchitecturalModel: the register table (here its names) and
the executable steps. -/
structure ArchitecturalModel where
  registerNames : List String
  steps : List AStep
deriving DecidableEq

/-- Source ArchitecturalModel.__init__: the width-inference pass followed by
the layer-construction pass. -/
def ArchitecturalModel.init (nin : Nat) (registers : List String) (arch : List Step)
    (r : Rng) : Except PyError (ArchitecturalModel × Rng) :=
  (inferSizes arch [("I", nin)]).bind (fun sizes =>
    (buildLayers sizes arch r).bind (fun p =>
      .ok ({ registerNames := "I" :: "O" :: registers, steps := p.1 }, p.2)))

/-- Source ArchitecturalModel.parameters. -/
def ArchitecturalModel.parameters (a : ArchitecturalModel) : List Value :=
  a.steps.flatMap (fun s => s.layer.parameters)

/-- Source Module.zero_grad acting on an ArchitecturalModel. -/
def ArchitecturalModel.zeroGrad (a : ArchitecturalModel) : ArchitecturalModel :=
  { a with steps := a.steps.map (fun s => { s with layer := s.layer.zeroGrad }) }

/-- Everything about a Neuron except the gradients: weight data, bias data,
nonlinearity flag. -/
def Neuron.shape (n : Neuron) : List Rat × Rat × Bool :=
  (n.w.map Value.data, n.b.data, n.nonlin)

/-- Everything about a Layer except the gradients. -/
def Layer.shape (l : Layer) : List (List Rat × Rat × Bool) := l.neurons.map Neuron.shape

/-- Everything about an MLP except the gradients. -/
def MLP.shape (m : MLP) : List (List (List Rat × Rat × Bool)) := m.layers.map Layer.shape

/-- Everything about an ArchitecturalModel except the gradients. -/
def ArchitecturalModel.shape (a : ArchitecturalModel) :
    List String × List (RegSpec × List (List Rat × Rat × Bool) × String) :=
  (a.registerNames, a.steps.map (fun s => (s.rin, s.layer.shape, s.rout)))

/-- A fixed random source for concrete instantiations. -/
def rng0 : Rng := { stream := fun _ => 0, pos := 0 }

/-- A concrete nonlinear unit: one weight 1, bias 0. -/
def nRelu : Neuron := { w := [{ data := 1, grad := 0 }], b := { data := 0, grad := 0 }, nonlin := true }

/-- A concrete linear unit: one weight 2 (grad 3), bias 1 (grad 4). -/
def nLin2 : Neuron := { w := [{ data := 2, grad := 3 }], b := { data := 1, grad := 4 }, nonlin := false }

/-- A concrete nonlinear unit with nonzero gradients. -/
def nGrad : Neuron := { w := [{ data := 2, grad := 3 }], b := { data := 1, grad := 4 }, nonlin := true }

/-- A one-neuron layer. -/
def layer1 : Layer := { neurons := [nLin2] }

/-- A two-neuron layer. -/
def layer2 : Layer := { neurons := [nLin2, nLin2] }

/-- The architecture example from the ArchitecturalModel docstring (and the
spec), with empty kwargs (default nonlin). -/
def exampleArch : List Step :=
  [{ rin := .single "I", width := 4, rout := "r0", nonlin := true },
   { rin := .single "I", width := 4, rout := "r1", nonlin := true },
   { rin := .multi ["r0", "r1"], width := 4, rout := "O", nonlin := true }]

/-- An architecture in which both r0 (widths 4, 5) and r1 (widths 4, 6) are
declared with two different widths. -/
def arch2 : List Step :=
  [{ rin := .single "I", width := 4, rout := "r0", nonlin := true },
   { rin := .single "I", width := 5, rout := "r0", nonlin := true },
   { rin := .single "I", width := 4, rout := "r1", nonlin := true },
   { rin := .single "I", width := 6, rout := "r1", nonlin := true }]

/-- The spec's width-mismatch example: r0 declared with width 4, then 5. -/
def archW : List Step :=
  [{ rin := .single "I", width := 4, rout := "r0", nonlin := true },
   { rin := .single "I", width := 5, rout := "r0", nonlin := true }]

/-- A valid first step followed by a step whose input spec is a three-element
list. -/
def badArch : List Step :=
  [{ rin := .single "I", width := 1, rout := "r0", nonlin := true },
   { rin := .multi ["r0", "r0", "r0"], width := 1, rout := "O", nonlin := true }]

/-- An architecture whose very first step has a three-element input spec. -/
def badFirstArch : List Step :=
  [{ rin := .multi ["r0", "r0", "r0"], width := 1, rout := "O", nonlin := true }]

/-- A default Step for total indexing. -/
def defaultStep : Step := { rin := .single "I", width := 0, rout := "I", nonlin := true }

lemma foldl_add_map {α : Type} (f : α → Rat) :
    ∀ (l : List α) (a : Rat), l.foldl (fun acc p => acc + f p) a = a + (l.map f).sum := by
  intro l
  induction l with
  | nil => intro a; simp
  | cons x xs ih => intro a; simp [List.foldl_cons, ih, add_assoc]

lemma map_mul_zip : ∀ (w : List Value) (x : List Rat),
    (List.zip w x).map (fun p => p.1.data * p.2) =
      List.zipWith (fun wv xv => wv.data * xv) w x := by
  intro w
  induction w with
  | nil => intro x; simp
  | cons a as ih =>
    intro x
    cases x with
    | nil => simp
    | cons b bs => simp [ih]

lemma zipWith_take_min {α β γ : Type} (f : α → β → γ) :
    ∀ (l1 : List α) (l2 : List β),
      List.zipWith f l1 l2 =
        List.zipWith f (l1.take (min l1.length l2.length))
          (l2.take (min l1.length l2.length)) := by
  intro l1
  induction l1 with
  | nil => intro l2; simp
  | cons a as ih =>
    intro l2
    cases l2 with
    | nil => simp
    | cons b bs =>
      simp only [List.length_cons, Nat.succ_min_succ, List.take_succ_cons,
        List.zipWith_cons_cons]
      exact congrArg _ (ih bs)

lemma neuron_call_eq (n : Neuron) (x : List Rat) :
    n.call x = if n.nonlin then relu (affineSum n x) else affineSum n x := by
  simp only [Neuron.call, affineSum]
  rw [foldl_add_map, map_mul_zip]

/-- C5: a Unit with nonlin = false applied to an input of matching length
returns the raw affine sum of weights times inputs plus bias, with no
clamping; with nonlin = true it returns 0 whenever that affine sum is at
most 0 and the unmodified affine sum otherwise. -/
theorem neuron_affine_and_relu (n : Neuron) (x : List Rat) (h : x.length = n.w.length) :
    (n.nonlin = false → n.call x = affineSum n x) ∧
    (n.nonlin = true →
      (affineSum n x ≤ 0 → n.call x = 0) ∧
      (0 < affineSum n x → n.call x = affineSum n x)) := by
  have hc := neuron_call_eq n x
  refine ⟨fun hn => ?_, fun hn => ⟨fun hle => ?_, fun hpos => ?_⟩⟩
  · rw [hc, hn]; simp
  · rw [hc, hn]; simp only [if_true, relu]
    exact max_eq_left hle
  · rw [hc, hn]; simp only [if_true, relu]
    exact max_eq_right (le_of_lt hpos)

/-- Witness for C5 at concrete inputs: an input of matching length, one
negative-sum case returning 0 and one positive-sum case returning the sum. -/
theorem neuron_affine_and_relu_witness :
    ([(-2 : Rat)].length = nRelu.w.length ∧ nRelu.call [(-2 : Rat)] = 0) ∧
    ([(3 : Rat)].length = nRelu.w.length ∧
      nRelu.call [(3 : Rat)] = affineSum nRelu [(3 : Rat)]) :=
  ⟨⟨rfl, ((neuron_affine_and_relu nRelu [(-2 : Rat)] rfl).2 rfl).1
      (by norm_num [affineSum, nRelu])⟩,
   ⟨rfl, ((neuron_affine_and_relu nRelu [(3 : Rat)] rfl).2 rfl).2
      (by norm_num [affineSum, nRelu])⟩⟩

/-- C8: when the input length differs from the weight count, evaluation does
not fail: it returns the bias plus the dot product over only the first
min(nin, len x) weight/input pairs (then ReLU when nonlinear), silently
dropping the excess entries of the longer sequence. -/
theorem neuron_truncating_dot (n : Neuron) (x : List Rat) (h : x.length ≠ n.w.length) :
    n.call x =
      if n.nonlin then
        relu (n.b.data + (List.zipWith (fun wv xv => wv.data * xv)
          (n.w.take (min n.w.length x.length))
          (x.take (min n.w.length x.length))).sum)
      else
        n.b.data + (List.zipWith (fun wv xv => wv.data * xv)
          (n.w.take (min n.w.length x.length))
          (x.take (min n.w.length x.length))).sum := by
  rw [neuron_call_eq]
  unfold affineSum
  rw [zipWith_take_min]

/-- Witness for C8: a two-element input against a one-weight unit evaluates
to bias + w0*x0 = 7, ignoring the second input entry. -/
theorem neuron_truncating_dot_witness :
    ([(3 : Rat), 100].length ≠ nLin2.w.length) ∧ nLin2.call [(3 : Rat), 100] = 7 := by
  refine ⟨by decide, ?_⟩
  have h := neuron_truncating_dot nLin2 [(3 : Rat), 100] (by decide)
  rw [h]
  norm_num [nLin2, relu]

/-- C4: a Layer with exactly one neuron returns the bare scalar produced by
that neuron (not a one-element sequence); a Layer with more than one neuron
returns the ordered sequence of its neurons' results, in neuron order. -/
theorem layer_call_unwrap (l : Layer) (x : List Rat) :
    (l.neurons.length = 1 →
      ∃ u, l.neurons = [u] ∧ l.call x = LOut.scalar (u.call x)) ∧
    (1 < l.neurons.length →
      l.call x = LOut.vec (l.neurons.map (fun n => n.call x))) := by
  constructor
  · intro h
    obtain ⟨u, hu⟩ := List.length_eq_one.mp h
    exact ⟨u, hu, by simp [Layer.call, hu]⟩
  · intro h
    have hne : ¬ (l.neurons.map (fun n => n.call x)).length = 1 := by
      simp only [List.length_map]
      omega
    unfold Layer.call
    rw [dif_neg hne]

/-- Witness for C4: a one-neuron layer yields a bare scalar and a two-neuron
layer yields the list of both results. -/
theorem layer_call_unwrap_witness :
    (layer1.neurons.length = 1 ∧
      ∃ u, layer1.neurons = [u] ∧ layer1.call [(3 : Rat)] = LOut.scalar (u.call [(3 : Rat)])) ∧
    (1 < layer2.neurons.length ∧
      layer2.call [(3 : Rat)] = LOut.vec (layer2.neurons.map (fun n => n.call [(3 : Rat)]))) :=
  ⟨⟨rfl, (layer_call_unwrap layer1 [(3 : Rat)]).1 rfl⟩,
   ⟨by decide, (layer_call_unwrap layer2 [(3 : Rat)]).2 (by decide)⟩⟩

lemma foldl_step_none : ∀ (ls : List Layer), ls.foldl stepLayer none = none := by
  intro ls
  induction ls with
  | nil => rfl
  | cons l t ih => simpa [stepLayer] using ih

lemma foldl_step_eq_apply : ∀ (ls : List Layer) (x : List Rat),
    ls.foldl stepLayer (some (.vec x)) = applyLayers ls x := by
  intro ls
  induction ls with
  | nil => intro x; rfl
  | cons l t ih =>
    intro x
    simp only [List.foldl_cons]
    have h1 : stepLayer (some (.vec x)) l = some (l.call x) := rfl
    rw [h1]
    cases hc : l.call x with
    | vec vs =>
      simp only [applyLayers, hc]
      exact ih vs
    | scalar v =>
      cases t with
      | nil => simp [applyLayers, hc]
      | cons l2 t2 =>
        simp only [applyLayers, hc, List.foldl_cons]
        have h2 : stepLayer (some (.scalar v)) l2 = none := rfl
        rw [h2, foldl_step_none]

/-- C7: evaluating an MLP on any input equals applying, in order, its own
sequence of standalone Layers (same widths, nonlinearity flags and weights),
threading each layer's output into the next; the stack adds no behavior
beyond that composition. -/
theorem mlp_equals_layer_composition (m : MLP) (x : List Rat) :
    MLP.call m x = applyLayers m.layers x :=
  foldl_step_eq_apply m.layers x

lemma drawList_length : ∀ (k : Nat) (r : Rng), (drawList k r).1.length = k := by
  intro k
  induction k with
  | zero => intro r; rfl
  | succ n ih => intro r; simp [drawList, ih]

lemma neuron_init_w_length (nin : Nat) (nl : Bool) (r : Rng) :
    ((Neuron.init nin nl r).1).w.length = nin := by
  simp [Neuron.init, drawList_length]

lemma mkNeurons_length : ∀ (k nin : Nat) (nl : Bool) (r : Rng),
    (mkNeurons k nin nl r).1.length = k := by
  intro k
  induction k with
  | zero => intro nin nl r; rfl
  | succ n ih => intro nin nl r; simp [mkNeurons, ih]

lemma mkNeurons_mem : ∀ (k nin : Nat) (nl : Bool) (r : Rng),
    ∀ u ∈ (mkNeurons k nin nl r).1, u.w.length = nin ∧ u.nonlin = nl := by
  intro k
  induction k with
  | zero => intro nin nl r u hu; simp [mkNeurons] at hu
  | succ n ih =>
    intro nin nl r u hu
    simp only [mkNeurons, List.mem_cons] at hu
    rcases hu with h | h
    · subst h; exact ⟨neuron_init_w_length _ _ _, rfl⟩
    · exact ih nin nl _ u h

lemma mkStack_length : ∀ (nouts : List Nat) (nin : Nat) (r : Rng),
    (mkStack nin nouts r).1.length = nouts.length := by
  intro nouts
  induction nouts with
  | nil => intro nin r; rfl
  | cons a t ih =>
    intro nin r
    cases t with
    | nil => rfl
    | cons b t2 => simp [mkStack, ih]

lemma mkStack_getD : ∀ (nouts : List Nat) (nin : Nat) (r : Rng) (i : Nat),
    i < nouts.length →
    ((mkStack nin nouts r).1.getD i { neurons := [] }).neurons.length = nouts.getD i 0 ∧
    ∀ u ∈ ((mkStack nin nouts r).1.getD i { neurons := [] }).neurons,
      u.w.length = (nin :: nouts).getD i 0 ∧ (u.nonlin = true ↔ i ≠ nouts.length - 1) := by
  intro nouts
  induction nouts with
  | nil => intro nin r i hi; simp at hi
  | cons a t ih =>
    intro nin r i hi
    cases t with
    | nil =>
      have hi0 : i = 0 := by
        simp only [List.length_cons, List.length_nil] at hi
        omega
      subst hi0
      constructor
      · simp only [mkStack, List.getD_cons_zero]
        simp [Layer.init, mkNeurons_length]
      · intro u hu
        simp only [mkStack, List.getD_cons_zero] at hu
        have hm := mkNeurons_mem a nin false r u (by simpa [Layer.init] using hu)
        refine ⟨by simpa using hm.1, ?_⟩
        simp [hm.2]
    | cons b t2 =>
      cases i with
      | zero =>
        constructor
        · simp only [mkStack, List.getD_cons_zero]
          simp [Layer.init, mkNeurons_length]
        · intro u hu
          simp only [mkStack, List.getD_cons_zero] at hu
          have hm := mkNeurons_mem a nin true r u (by simpa [Layer.init] using hu)
          refine ⟨by simpa using hm.1, ?_⟩
          refine ⟨fun _ => ?_, fun _ => hm.2⟩
          simp only [List.length_cons]
          omega
      | succ n =>
        have hn : n < (b :: t2).length := by
          simp only [List.length_cons] at hi ⊢
          omega
        have H := ih a ((Layer.init nin a true r).2) n hn
        constructor
        · simp only [mkStack, List.getD_cons_succ]
          exact H.1
        · intro u hu
          simp only [mkStack, List.getD_cons_succ] at hu
          have hm := H.2 u hu
          refine ⟨by simpa using hm.1, ?_⟩
          rw [hm.2]
          simp only [List.length_cons]
          constructor <;> intro <;> omega

/-- C6: in an MLP built from input width nin and a non-empty width list
nouts, layer i has nouts[i] neurons, every neuron of layer i has
([nin] ++ nouts)[i] weights, and every layer is nonlinear except the last,
which is linear. -/
theorem mlp_layer_widths (nin : Nat) (nouts : List Nat) (r : Rng) (hne : nouts ≠ []) :
    ((MLP.init nin nouts r).1).layers.length = nouts.length ∧
    ∀ i, i < nouts.length →
      (((MLP.init nin nouts r).1).layers.getD i { neurons := [] }).neurons.length
          = nouts.getD i 0 ∧
      ∀ u ∈ (((MLP.init nin nouts r).1).layers.getD i { neurons := [] }).neurons,
        u.w.length = (nin :: nouts).getD i 0 ∧
        (i < nouts.length - 1 → u.nonlin = true) ∧
        (i = nouts.length - 1 → u.nonlin = false) := by
  refine ⟨mkStack_length nouts nin r, fun i hi => ?_⟩
  have H := mkStack_getD nouts nin r i hi
  refine ⟨H.1, fun u hu => ?_⟩
  have hm := H.2 u hu
  refine ⟨hm.1, fun hlt => ?_, fun heq => ?_⟩
  · exact hm.2.mpr (by omega)
  · cases hb : u.nonlin
    · rfl
    · exact absurd (hm.2.mp hb) (by omega)

/-- Witness for C6 at nin = 2, nouts = [2, 1]: two layers, the first of two
neurons. -/
theorem mlp_layer_widths_witness :
    (([2, 1] : List Nat) ≠ []) ∧
    ((MLP.init 2 [2, 1] rng0).1).layers.length = ([2, 1] : List Nat).length ∧
    (((MLP.init 2 [2, 1] rng0).1).layers.getD 0 { neurons := [] }).neurons.length
        = ([2, 1] : List Nat).getD 0 0 :=
  ⟨by decide, (mlp_layer_widths 2 [2, 1] rng0 (by decide)).1,
    ((mlp_layer_widths 2 [2, 1] rng0 (by decide)).2 0 (by decide)).1⟩

lemma inferSizes_ok_lookup : ∀ (arch : List Step) (sizes m : List (String × Nat)),
    inferSizes arch sizes = .ok m →
    ∀ (rr : String) (ww : Nat), lookupSize rr sizes = some ww → lookupSize rr m = some ww := by
  intro arch
  induction arch with
  | nil =>
    intro sizes m h rr ww hl
    simp only [inferSizes] at h
    cases h
    exact hl
  | cons s rest ih =>
    intro sizes m h rr ww hl
    simp only [inferSizes] at h
    split at h
    next hc =>
      apply ih _ _ h
      by_cases he : s.rout = rr
      · rw [he] at hc; rw [hc] at hl; exact Option.noConfusion hl
      · simpa [lookupSize, he] using hl
    next e hc =>
      split at h
      next hw => exact ih _ _ h rr ww hl
      next hw => exact Except.noConfusion h

lemma inferSizes_ok_mem : ∀ (arch : List Step) (sizes m : List (String × Nat)),
    inferSizes arch sizes = .ok m →
    ∀ s ∈ arch, lookupSize s.rout m = some s.width := by
  intro arch
  induction arch with
  | nil => intro sizes m h s hs; simp at hs
  | cons s0 rest ih =>
    intro sizes m h s hs
    simp only [inferSizes] at h
    split at h
    next hc =>
      rcases List.mem_cons.mp hs with h1 | h1
      · subst h1
        apply inferSizes_ok_lookup rest _ _ h
        simp [lookupSize]
      · exact ih _ _ h s h1
    next e hc =>
      split at h
      next hw =>
        rcases List.mem_cons.mp hs with h1 | h1
        · subst h1
          apply inferSizes_ok_lookup rest _ _ h
          rw [hc, hw]
        · exact ih _ _ h s h1
      next hw => exact Except.noConfusion h

lemma inferSizes_error_shape : ∀ (arch : List Step) (sizes : List (String × Nat)) (ε : PyError),
    inferSizes arch sizes = .error ε →
    ∃ rr g e, ε = .widthMismatch rr g e ∧ g ≠ e := by
  intro arch
  induction arch with
  | nil => intro sizes ε h; exact Except.noConfusion h
  | cons s rest ih =>
    intro sizes ε h
    simp only [inferSizes] at h
    split at h
    next hc => exact ih _ _ h
    next e hc =>
      split at h
      next hw => exact ih _ _ h
      next hw =>
        injection h with h2
        exact ⟨s.rout, s.width, e, h2.symm, hw⟩

/-- C2 (amended): whenever some output register appears as the output of two
steps with two different declared widths, the register-width inference pass
itself already fails — before any layer is built — with a width-mismatch
error carrying some register name and two distinct widths, and construction
fails with exactly that error; the register named is the first one whose
declared width conflicts with its previously recorded width, which can
differ from the register of the given conflicting pair. -/
theorem register_width_mismatch (nin : Nat) (arch : List Step) (i j : Nat)
    (hi : i < arch.length) (hj : j < arch.length) (hij : i ≠ j)
    (hr : (arch.get ⟨i, hi⟩).rout = (arch.get ⟨j, hj⟩).rout)
    (hw : (arch.get ⟨i, hi⟩).width ≠ (arch.get ⟨j, hj⟩).width) :
    ∃ rr g e, inferSizes arch [("I", nin)] = .error (.widthMismatch rr g e) ∧ g ≠ e ∧
      ∀ (registers : List String) (r : Rng),
        ArchitecturalModel.init nin registers arch r = .error (.widthMismatch rr g e) := by
  cases hres : inferSizes arch [("I", nin)] with
  | ok m =>
    exfalso
    have h1 := inferSizes_ok_mem arch _ m hres _ (List.get_mem arch i hi)
    have h2 := inferSizes_ok_mem arch _ m hres _ (List.get_mem arch j hj)
    rw [hr] at h1
    rw [h1] at h2
    exact hw (Option.some.inj h2)
  | error ε =>
    obtain ⟨rr, g, e, hshape, hge⟩ := inferSizes_error_shape arch _ ε hres
    subst hshape
    refine ⟨rr, g, e, rfl, hge, fun registers r => ?_⟩
    unfold ArchitecturalModel.init
    rw [hres]
    rfl

/-- Witness for C2 (amended) at the spec's own width-mismatch example:
r0 declared with width 4 and then width 5. -/
theorem register_width_mismatch_witness :
    (0 < archW.length ∧ 1 < archW.length ∧ (0 : Nat) ≠ 1) ∧
    (∃ rr g e, inferSizes archW [("I", 1)] = .error (.widthMismatch rr g e) ∧ g ≠ e ∧
      ∀ (registers : List String) (r : Rng),
        ArchitecturalModel.init 1 registers archW r = .error (.widthMismatch rr g e)) :=
  ⟨⟨by decide, by decide, by decide⟩,
    register_width_mismatch 1 archW 0 1 (by decide) (by decide) (by decide)
      (by decide) (by decide)⟩

/-- C2 counterexample: in arch2 the register r1 appears as the output of two
steps (indices 2 and 3) with different widths 4 and 6, yet the error raised
at construction is the width-mismatch for r0 (widths 5 and 4) — it does not
name r1 or the width 6, refuting the claim that the error names the
conflicting register of every (or any chosen) conflicting pair. -/
theorem register_width_mismatch_counterexample :
    (arch2.get ⟨2, by decide⟩).rout = (arch2.get ⟨3, by decide⟩).rout ∧
    (arch2.get ⟨2, by decide⟩).width ≠ (arch2.get ⟨3, by decide⟩).width ∧
    ArchitecturalModel.init 1 ["r0", "r1"] arch2 rng0 = .error (.widthMismatch "r0" 5 4) ∧
    ∀ g e, ArchitecturalModel.init 1 ["r0", "r1"] arch2 rng0
      ≠ .error (.widthMismatch "r1" g e) := by
  refine ⟨by decide, by decide, rfl, ?_⟩
  intro g e hcontra
  rw [show ArchitecturalModel.init 1 ["r0", "r1"] arch2 rng0
      = .error (.widthMismatch "r0" 5 4) from rfl] at hcontra
  injection hcontra with h1
  injection h1 with h2 h3 h4
  exact absurd h2 (by decide)

/-- C1 (code bug): on the docstring's own example (nin = 4,
registers = r0, r1, architecture [("I",4,"r0"), ("I",4,"r1"),
(["r0","r1"],4,"O")]), the width-inference pass succeeds and records exactly
the claimed widths r0 = 4, r1 = 4, O = 4 (with I = 4), but construction then
raises TypeError at the first step's malformed three-argument list.append,
so the model is never built, let alone evaluated. -/
theorem architectural_model_example_fails :
    inferSizes exampleArch [("I", 4)] = .ok [("O", 4), ("r1", 4), ("r0", 4), ("I", 4)] ∧
    ArchitecturalModel.init 4 ["r0", "r1"] exampleArch rng0 = .error .typeError :=
  ⟨rfl, rfl⟩

/-- C3 (code bug): badArch's second step has a three-element input spec, yet
construction raises TypeError at the first step's malformed append — not the
register-spec error the claim requires; the register-spec check is only
reachable when the offending step is the very first one, as badFirstArch
shows. -/
theorem register_spec_error_preempted :
    ((badArch.getD 1 defaultStep).rin = .multi ["r0", "r0", "r0"] ∧
      (["r0", "r0", "r0"] : List String).length ≠ 2) ∧
    ArchitecturalModel.init 1 ["r0"] badArch rng0 = .error .typeError ∧
    PyError.typeError ≠ PyError.registerSpec ∧
    ArchitecturalModel.init 1 ["r0"] badFirstArch rng0 = .error .registerSpec :=
  ⟨⟨rfl, by decide⟩, rfl, by decide, rfl⟩

lemma neuron_zero_grad_param : ∀ (n : Neuron), ∀ p ∈ n.zeroGrad.parameters, p.grad = 0 := by
  intro n p hp
  simp only [Neuron.zeroGrad, Neuron.parameters, List.mem_append, List.mem_map,
    List.mem_singleton] at hp
  rcases hp with ⟨v, _, hv⟩ | hv
  · rw [← hv]; rfl
  · rw [hv]; rfl

lemma layer_zero_grad_param : ∀ (l : Layer), ∀ p ∈ l.zeroGrad.parameters, p.grad = 0 := by
  intro l p hp
  simp only [Layer.zeroGrad, Layer.parameters, List.mem_flatMap, List.mem_map] at hp
  rcases hp with ⟨n, ⟨n0, _, hn0⟩, hpn⟩
  subst hn0
  exact neuron_zero_grad_param n0 p hpn

lemma mlp_zero_grad_param : ∀ (m : MLP), ∀ p ∈ m.zeroGrad.parameters, p.grad = 0 := by
  intro m p hp
  simp only [MLP.zeroGrad, MLP.parameters, List.mem_flatMap, List.mem_map] at hp
  rcases hp with ⟨l, ⟨l0, _, hl0⟩, hpl⟩
  subst hl0
  exact layer_zero_grad_param l0 p hpl

lemma am_zero_grad_param : ∀ (a : ArchitecturalModel),
    ∀ p ∈ a.zeroGrad.parameters, p.grad = 0 := by
  intro a p hp
  simp only [ArchitecturalModel.zeroGrad, ArchitecturalModel.parameters,
    List.mem_flatMap, List.mem_map] at hp
  rcases hp with ⟨s, ⟨s0, _, hs0⟩, hps⟩
  subst hs0
  exact layer_zero_grad_param s0.layer p hps

/-- C9: for every component — Neuron, Layer, MLP, ArchitecturalModel — and
every prior gradient state, the zero-grad sweep leaves every parameter
returned by parameters() with gradient exactly 0. -/
theorem zero_grad_zeroes :
    (∀ (n : Neuron), ∀ p ∈ n.zeroGrad.parameters, p.grad = 0) ∧
    (∀ (l : Layer), ∀ p ∈ l.zeroGrad.parameters, p.grad = 0) ∧
    (∀ (m : MLP), ∀ p ∈ m.zeroGrad.parameters, p.grad = 0) ∧
    (∀ (a : ArchitecturalModel), ∀ p ∈ a.zeroGrad.parameters, p.grad = 0) :=
  ⟨neuron_zero_grad_param, layer_zero_grad_param, mlp_zero_grad_param, am_zero_grad_param⟩

/-- Witness for C9: a neuron whose weight had gradient 3 has, after the
sweep, that parameter present with gradient 0. -/
theorem zero_grad_zeroes_witness :
    ({ data := 2, grad := 0 } : Value) ∈ nGrad.zeroGrad.parameters ∧
    ({ data := 2, grad := 0 } : Value).grad = 0 :=
  ⟨List.mem_cons_self _ _,
    zero_grad_zeroes.1 nGrad { data := 2, grad := 0 } (List.mem_cons_self _ _)⟩

lemma neuron_shape_zero_grad (n : Neuron) : n.zeroGrad.shape = n.shape := by
  simp [Neuron.zeroGrad, Neuron.shape, zeroGradV, List.map_map, Function.comp]

lemma layer_shape_zero_grad (l : Layer) : l.zeroGrad.shape = l.shape := by
  simp only [Layer.zeroGrad, Layer.shape, List.map_map]
  have h : Neuron.shape ∘ Neuron.zeroGrad = Neuron.shape := funext neuron_shape_zero_grad
  rw [h]

lemma mlp_shape_zero_grad (m : MLP) : m.zeroGrad.shape = m.shape := by
  simp only [MLP.zeroGrad, MLP.shape, List.map_map]
  have h : Layer.shape ∘ Layer.zeroGrad = Layer.shape := funext layer_shape_zero_grad
  rw [h]

lemma am_shape_zero_grad (a : ArchitecturalModel) : a.zeroGrad.shape = a.shape := by
  have hfun : ((fun s : AStep => (s.rin, s.layer.shape, s.rout)) ∘
      (fun s : AStep => { s with layer := s.layer.zeroGrad }))
      = fun s : AStep => (s.rin, s.layer.shape, s.rout) := by
    funext s
    simp [layer_shape_zero_grad]
  simp only [ArchitecturalModel.zeroGrad, ArchitecturalModel.shape, List.map_map, hfun]

/-- C10: the zero-grad sweep mutates only gradients: for every component,
the data of every weight and bias, every nonlinearity flag, and the whole
structure (weight lists, neuron lists, layer lists, steps, register names)
are unchanged. -/
theorem zero_grad_frame :
    (∀ (n : Neuron), n.zeroGrad.shape = n.shape) ∧
    (∀ (l : Layer), l.zeroGrad.shape = l.shape) ∧
    (∀ (m : MLP), m.zeroGrad.shape = m.shape) ∧
    (∀ (a : ArchitecturalModel), a.zeroGrad.shape = a.shape) :=
  ⟨neuron_shape_zero_grad, layer_shape_zero_grad, mlp_shape_zero_grad, am_shape_zero_grad⟩

end Micrograd
